import Mathlib

/-!
Verification of the sierradb-inspector projection engine.

This file shallowly embeds the core of `src/server/src/projectionEngine.ts`
(the optimized parallel variant, whose methods `accumulateState`,
`filterStateForClient`, `processPartition`, `processPartitionOptimized` and
`runProjection` are modelled below) and of the debug/step session manager
(`DebugSessionManager.stepSession` / `resetSession`).

Modelling conventions:
- Projection state values cross the sandbox boundary as JSON, so states are
  modelled by `JValue`: null, numbers, strings, booleans, ordered lists and
  insertion-ordered string-keyed maps.  JavaScript numbers are modelled as
  `Int` (none of the verified properties concerns float rounding).
- The sandbox invocation of the user script is modelled as an explicit
  function `JValue → Event → Except String JValue`; the `.error` case covers
  every RuntimeFault path of `executeProjectionFunction` (uncaught script
  exception, invalid or non-string result, JSON parse failure), all of which
  make the host keep the previous state.
- The event-source cursor is an external collaborator; a partition is given
  to the model as its full ordered event list (the pagination loop of
  `scanPartition` only splits this list into pages and threads the state
  through every event in order).
- The abort signal is modelled at the granularity the claims cite: the
  orchestrator checks it once per concurrency group (`runProjection`,
  optimized variant, group loop), so the model takes `abortAfter : Option Nat`
  meaning the signal is observed set at every check with group index at
  least the given number.
-/

namespace SierraDB

/-- A JSON-interchange value, the shape of all projection state crossing the
sandbox boundary (`JSON.stringify` / `JSON.parse` in the engine). -/
inductive JValue where
  | null
  | num (n : Int)
  | str (s : String)
  | bool (b : Bool)
  | arr (elems : List JValue)
  | obj (fields : List (String × JValue))
deriving Inhabited

/-- JavaScript truthiness of a JSON value: `null`, `0`, the empty string and
`false` are falsy; every array and object is truthy. -/
def truthy : JValue → Bool
  | .null => false
  | .num n => n != 0
  | .str s => s != ""
  | .bool b => b
  | .arr _ => true
  | .obj _ => true

/-- `Array.isArray` on a JSON value. -/
def isArr : JValue → Bool
  | .arr _ => true
  | _ => false

/-- `isPlainObject` of the engine restricted to JSON values: after the JSON
boundary the only plain objects are maps (`Date`/`RegExp` cannot occur). -/
def isObj : JValue → Bool
  | .obj _ => true
  | _ => false

/-- First-occurrence lookup in an insertion-ordered property list
(JavaScript `result[key]` read). -/
def lookupKey : List (String × JValue) → String → Option JValue
  | [], _ => none
  | (k', v) :: rest, k => if k' = k then some v else lookupKey rest k

/-- Property write `result[key] = v`: updates the first occurrence in place
(keeping its position, as JavaScript objects do) or appends a new property. -/
def setKey : List (String × JValue) → String → JValue → List (String × JValue)
  | [], k, v => [(k, v)]
  | (k', v') :: rest, k, v =>
      if k' = k then (k, v) :: rest else (k', v') :: setKey rest k v

mutual

/-- `ProjectionEngine.accumulateState(baseState, newState)` translated from
the source: falsy operands yield the other side; two arrays concatenate; with
exactly one array the array wins; a non-object incoming (or non-object base)
yields the incoming value; two objects are merged key-wise by `mergeEntries`. -/
def accumulateState (baseState newState : JValue) : JValue :=
  if truthy baseState = false then newState
  else if truthy newState = false then baseState
  else
    match baseState, newState with
    | .arr xs, .arr ys => .arr (xs ++ ys)
    | _, .arr ys => .arr ys
    | .arr xs, _ => .arr xs
    | .obj bs, .obj ns => .obj (mergeEntries bs ns)
    | _, _ => newState

/-- The `for (const [key, value] of Object.entries(newState))` loop of
`accumulateState`: the accumulator starts as a copy of the base object and is
updated entry by entry (shared keys through `mergeValue`, fresh keys
appended; `deepClone` is the identity on JSON values). -/
def mergeEntries (bs : List (String × JValue)) : List (String × JValue) → List (String × JValue)
  | [] => bs
  | (k, v) :: rest =>
      match lookupKey bs k with
      | some bv => mergeEntries (setKey bs k (mergeValue bv v)) rest
      | none => mergeEntries (bs ++ [(k, v)]) rest

/-- The shared-key branch of the loop body: numbers are summed, arrays are
concatenated, plain objects recurse, anything else takes the incoming value. -/
def mergeValue (bv v : JValue) : JValue :=
  match bv, v with
  | .num a, .num b => .num (a + b)
  | .arr xs, .arr ys => .arr (xs ++ ys)
  | .obj b, .obj n => .obj (mergeEntries b n)
  | _, v => v

end

/-- The JavaScript test `key.startsWith('_')` used by `filterStateForClient`,
written on the character list so that it evaluates on concrete keys: a string
starts with the single character `_` exactly when its first character is. -/
def startsWithUnderscore (k : String) : Bool :=
  match k.data with
  | [] => false
  | c :: _ => c == '_'

mutual

/-- `ProjectionEngine.filterStateForClient`: non-objects pass through, arrays
are filtered element-wise, and object entries go through `filterEntries`. -/
def filterStateForClient : JValue → JValue
  | .arr elems => .arr (filterList elems)
  | .obj fields => .obj (filterEntries fields)
  | v => v

/-- Element-wise filtering of an array (`state.map(item => ...)`). -/
def filterList : List JValue → List JValue
  | [] => []
  | v :: rest => filterStateForClient v :: filterList rest

/-- The entry loop of `filterStateForClient`: keys starting with an
underscore are skipped; truthy object-typed values (arrays and maps) are
filtered recursively; every other value is kept as-is. -/
def filterEntries : List (String × JValue) → List (String × JValue)
  | [] => []
  | (k, v) :: rest =>
      if startsWithUnderscore k then filterEntries rest
      else
        match v with
        | .arr elems => (k, filterStateForClient (.arr elems)) :: filterEntries rest
        | .obj fields => (k, filterStateForClient (.obj fields)) :: filterEntries rest
        | v => (k, v) :: filterEntries rest

end

/-- An event as handed to the projection script
(`processEventForProjection`; payload blobs are already decoded). -/
structure Event where
  event_id : String := ""
  partition_key : String := ""
  partition_id : Nat := 0
  transaction_id : String := ""
  partition_sequence : Nat := 0
  stream_version : Nat := 0
  timestamp : Nat := 0
  stream_id : String := ""
  event_name : String := ""
  metadata : JValue := .null
  payload : JValue := .null
deriving Inhabited

/-- A compiled projection script as seen by the host: one sandbox invocation
on (state, event).  `.error` stands for any RuntimeFault of
`executeProjectionFunction` (script exception, invalid or unparsable
result), `.ok` for a successfully serialized new state. -/
def StepFun : Type := JValue → Event → Except String JValue

/-- One event through `executeProjectionFunction`: a RuntimeFault leaves the
running state unchanged (the host catches and returns the previous state). -/
def execEvent (f : StepFun) (s : JValue) (e : Event) : JValue :=
  match f s e with
  | .ok s' => s'
  | .error _ => s

/-- `ProjectionEngine.processPartition` (the Single-Partition Processor):
the caller's state threaded through every event of the partition in order,
with per-event RuntimeFault recovery.  The `scanPartition` pagination only
splits the list into pages, so the state thread is the fold below. -/
def processPartition (f : StepFun) (initialState : JValue) (events : List Event) : JValue :=
  events.foldl (execEvent f) initialState

/-- VM batch size of the optimized engine (`this.batchSize`). -/
def batchSize : Nat := 200

/-- Concurrency bound of the optimized engine (`this.maxConcurrentPartitions`). -/
def maxConcurrentPartitions : Nat := 6

/-- The in-VM `projectBatch` loop: the user function applied to each event in
order with no per-event recovery, so the first fault aborts the whole batch. -/
def runBatchVM (f : StepFun) (s : JValue) (events : List Event) : Except String JValue :=
  match events with
  | [] => .ok s
  | e :: rest =>
      match f s e with
      | .ok s' => runBatchVM f s' rest
      | .error msg => .error msg

/-- `ProjectionEngine.executeBatchProjectionFunction`: the whole batch runs
through the in-VM `projectBatch` loop, and the host's catch block returns the
pre-batch state on any error — so a faulting multi-event batch is discarded
wholesale, including the effects of its earlier successful events. -/
def executeBatchProjectionFunction (f : StepFun) (s : JValue) (events : List Event) : JValue :=
  match runBatchVM f s events with
  | .ok s' => s'
  | .error _ => s

/-- The processing-batch loop of `processPartitionOptimized`: events are cut
into batches of `batchSize`; a batch of one event goes through the single
execution script (whose in-VM wrapper recovers per event), larger ones
through `executeBatchProjectionFunction`.  The individual-reprocessing
fallback in the source's catch arm is dead code — both execute methods catch
internally and never throw — so it does not appear in the model. -/
def processBatches (f : StepFun) (events : List Event) (s : JValue) : JValue :=
  match events with
  | [] => s
  | e :: rest =>
      let batch := (e :: rest).take batchSize
      let s' :=
        match batch with
        | [b] => execEvent f s b
        | bs => executeBatchProjectionFunction f s bs
      processBatches f ((e :: rest).drop batchSize) s'
termination_by events.length
decreasing_by
  simp [batchSize]
  omega

/-- `ProjectionEngine.processPartitionOptimized` run by a parallel worker:
each partition starts from a null state and reports its final state and how
many events it processed (faulting events included, per the fallback path). -/
def processPartitionOptimized (f : StepFun) (events : List Event) : JValue × Nat :=
  (processBatches f events .null, events.length)

/-- Status field of a progress payload. -/
inductive RunStatus where
  | running
  | completed
  | error
deriving DecidableEq, Inhabited

/-- The progress payload handed to `onProgress` (section 6 of the wire
contract). -/
structure Progress where
  current_partition : Nat
  total_partitions : Nat
  events_processed : Nat
  current_state : JValue
  status : RunStatus
  error : Option String
deriving Inhabited

/-- Partition indexing of the orchestrator loop (`for partition = start ...`). -/
def enumFrom (n : Nat) : List α → List (Nat × α)
  | [] => []
  | x :: xs => (n, x) :: enumFrom (n + 1) xs

/-- Whether the advisory abort signal is observed set at the check with group
index `g`; `abortAfter = some k` means `abort()` was called while group `k`
was the next to be scheduled (the signal stays set once set). -/
def abortedAt (abortAfter : Option Nat) (g : Nat) : Bool :=
  match abortAfter with
  | none => false
  | some k => k ≤ g

/-- The sequential merge loop over one concurrency group's results
(`for (const result of results)` in `runProjection`): each partition-local
state is merged into the global state with `accumulateState`, the cumulative
event counter advances, and a `running` progress event is emitted whose
`current_state` went through `filterStateForClient`.  The trace records the
raw engine state next to each emitted payload, for specification purposes. -/
def mergeResults : List (Nat × JValue × Nat) → Nat → JValue → Nat →
    List (JValue × Progress) × JValue × Nat
  | [], _, state, count => ([], state, count)
  | r :: rest, total, state, count =>
      let state' := accumulateState state r.2.1
      let count' := count + r.2.2
      let tail := mergeResults rest total state' count'
      ((state', ⟨r.1, total, count', filterStateForClient state', .running, none⟩) :: tail.1,
       tail.2)

/-- The group loop of `runProjection` (optimized variant): partitions are
taken in concurrency-bounded groups of `maxConcurrentPartitions`; the abort
signal is checked before each group; each partition of a group is processed
from a null state by `processPartitionOptimized` and the group's results are
merged in dispatch order by `mergeResults`. -/
def processGroups (f : StepFun) (parts : List (Nat × List Event)) (g : Nat)
    (abortAfter : Option Nat) (state : JValue) (count : Nat) (total : Nat) :
    List (JValue × Progress) × JValue × Nat :=
  match parts with
  | [] => ([], state, count)
  | p :: rest =>
      if abortedAt abortAfter g then ([], state, count)
      else
        let group := (p :: rest).take maxConcurrentPartitions
        let results := group.map (fun pr => (pr.1, processPartitionOptimized f pr.2))
        let r1 := mergeResults results total state count
        let r2 := processGroups f ((p :: rest).drop maxConcurrentPartitions) (g + 1)
          abortAfter r1.2.1 r1.2.2 total
        (r1.1 ++ r2.1, r2.2)
termination_by parts.length
decreasing_by
  simp [maxConcurrentPartitions]
  omega

/-- `ProjectionEngine.runProjection` on the all-partitions path, with the
compile step abstracted: `none` models a script whose wrapper threw
`No project function defined` when first run (before any event-store access),
which the catch block reports as the single terminal error progress event;
`some f` models a successfully compiled script.  The result is the list of
(raw engine state, emitted progress payload) pairs in emission order,
together with the engine's final accumulated state. -/
def runProjection (script : Option StepFun) (initialState : JValue)
    (partitions : List (List Event)) (abortAfter : Option Nat) :
    List (JValue × Progress) × JValue :=
  match script with
  | none =>
      ([(initialState,
         ⟨0, 0, 0, filterStateForClient initialState, .error,
          some "No project function defined"⟩)],
       initialState)
  | some f =>
      let total := partitions.length
      let r := processGroups f (enumFrom 0 partitions) 0 abortAfter initialState 0 total
      (r.1 ++ [(r.2.1,
        ⟨total, total, r.2.2, filterStateForClient r.2.1, .completed, none⟩)],
       r.2.1)

/-- The final state a partition contributes when processed from a null
initial state by the optimized batch path (the first component of
`processPartitionOptimized`, with its wholesale-discard batch semantics). -/
def partitionFinalState (f : StepFun) (events : List Event) : JValue :=
  (processPartitionOptimized f events).1

/-- The state accumulated after merging the first `k` partitions' null-seeded
optimized results into the caller's initial state, in dispatch order. -/
def mergedUpTo (f : StepFun) (initialState : JValue) (partitions : List (List Event))
    (k : Nat) : JValue :=
  (partitions.take k).foldl (fun s evs => accumulateState s (partitionFinalState f evs))
    initialState

mutual

/-- Structural equality of JSON values, the model of the
`JSON.stringify(a) !== JSON.stringify(b)` comparison used by `stepSession`
for its `stateChanged` flag (serialization is injective on JSON values). -/
def jeq : JValue → JValue → Bool
  | .null, .null => true
  | .num a, .num b => a == b
  | .str a, .str b => a == b
  | .bool a, .bool b => a == b
  | .arr xs, .arr ys => jeqList xs ys
  | .obj xs, .obj ys => jeqFields xs ys
  | _, _ => false

/-- Element-wise equality of JSON arrays. -/
def jeqList : List JValue → List JValue → Bool
  | [], [] => true
  | x :: xs, y :: ys => jeq x y && jeqList xs ys
  | _, _ => false

/-- Entry-wise equality of JSON objects (order-sensitive, as stringify is). -/
def jeqFields : List (String × JValue) → List (String × JValue) → Bool
  | [], [] => true
  | (k, v) :: xs, (k', v') :: ys => k == k' && jeq v v' && jeqFields xs ys
  | _, _ => false

end

/-- Lifecycle states of a debug session. -/
inductive SessionStatus where
  | idle
  | running
  | paused
  | completed
  | error
deriving DecidableEq, Inhabited

/-- One captured console line of the sandbox console shim. -/
structure ConsoleLog where
  timestamp : Nat
  level : String
  message : String

/-- What one run of the debug execution script reports back to the host:
either the new state with the lines logged during the step, or the message of
the script exception it caught (in which case no logs are appended). -/
inductive StepOutcome where
  | ok (result : JValue) (logs : List ConsoleLog)
  | err (message : String)

/-- A `DebugSession` of `DebugSessionManager`: the compiled execution script
is modelled as the function the sandbox computes (`script`), and the bounded
event sample is the materialized `events` list.  `lastAccessed` is wall-clock
bookkeeping for the idle sweep and is not modelled. -/
structure DebugSession where
  code : String
  script : JValue → Event → StepOutcome
  events : List Event
  currentEventIndex : Nat
  currentPartition : Nat
  totalPartitions : Nat
  currentState : JValue
  previousState : JValue
  initialState : JValue
  status : SessionStatus
  consoleLogs : List ConsoleLog
  error : Option String

/-- The pair of flags `stepSession` returns beside the session status. -/
structure StepFlags where
  stateChanged : Bool
  processingComplete : Bool
deriving DecidableEq

/-- `DebugSessionManager.stepSession` translated from the source: terminal
sessions return immediately; an exhausted sample completes; otherwise the one
current event runs through the sandbox — a reported error moves the session
to `error` with the message recorded and everything else untouched, a
successful step commits the new state, appends the captured logs, advances
the index and lands on `completed` or `paused`. -/
def stepSession (s : DebugSession) : DebugSession × StepFlags :=
  if s.status = .completed ∨ s.status = .error then
    (s, ⟨false, true⟩)
  else if h : s.currentEventIndex < s.events.length then
    let s1 := { s with status := .running, previousState := s.currentState }
    let currentEvent := s.events.get ⟨s.currentEventIndex, h⟩
    match s.script s.currentState currentEvent with
    | .err msg =>
        let s2 := { s1 with status := .error, error := some msg }
        (s2, ⟨!jeq s2.previousState s2.currentState, true⟩)
    | .ok result logs =>
        let idx := s1.currentEventIndex + 1
        let s2 := { s1 with
          currentState := result,
          consoleLogs := s1.consoleLogs ++ logs,
          currentEventIndex := idx,
          status := if s1.events.length ≤ idx then .completed else .paused }
        (s2, ⟨!jeq s2.previousState s2.currentState, s2.status = .completed⟩)
  else
    ({ s with status := .completed }, ⟨false, true⟩)

/-- `DebugSessionManager.resetSession`: rewinds index and state to the
session's original initial value and clears status, logs and error, touching
neither the compiled script nor the materialized events. -/
def resetSession (s : DebugSession) : DebugSession :=
  { s with
    currentEventIndex := 0,
    currentState := s.initialState,
    previousState := .null,
    status := .idle,
    consoleLogs := [],
    error := none }

/-- `n` consecutive `stepSession` calls (dropping the returned flags). -/
def stepN : Nat → DebugSession → DebugSession
  | 0, s => s
  | n + 1, s => stepN n (stepSession s).1

/-- Property read on a JSON value: `state[k]` when the value is a map. -/
def jGet (v : JValue) (k : String) : Option JValue :=
  match v with
  | .obj l => lookupKey l k
  | _ => none

/-- Uniqueness of keys, as JavaScript objects guarantee. -/
def nodupKeys (l : List (String × JValue)) : Prop :=
  (l.map Prod.fst).Nodup

/-- A concrete idle session whose script always reports an error. -/
def sampleErrSession : DebugSession where
  code := "function project(state, event)"
  script := fun _ _ => .err "boom"
  events := [{}]
  currentEventIndex := 0
  currentPartition := 0
  totalPartitions := 1
  currentState := .null
  previousState := .null
  initialState := .null
  status := .idle
  consoleLogs := []
  error := none

/-- The same session already in a terminal state. -/
def sampleDoneSession : DebugSession :=
  { sampleErrSession with status := .completed }

/-! ### Claim C1: merging two numbers -/

/-- C1 counterexample: as whole state values, two numbers do not merge to
their sum — `accumulateState` falls through to the incoming-wins branch, so
`merge(3, 4) = 4`, not `7`. -/
theorem C1_counterexample :
    accumulateState (.num 3) (.num 4) ≠ .num (3 + 4) := by
  simp [accumulateState, truthy]

/-- C1 as amended: numbers appearing as values of a shared key inside maps
are summed; but when the two numbers are the whole state values the merge
returns the incoming number when it is nonzero and the base number when the
incoming is zero (which coincides with the sum only when one side is zero). -/
theorem C1_number_merge (a b : Int) (k : String) :
    accumulateState (.obj [(k, .num a)]) (.obj [(k, .num b)])
        = .obj [(k, .num (a + b))]
      ∧ (b ≠ 0 → accumulateState (.num a) (.num b) = .num b)
      ∧ (b = 0 → accumulateState (.num a) (.num b) = .num a) := by
  refine ⟨?_, ?_, ?_⟩
  · simp [accumulateState, truthy, mergeEntries, mergeValue, lookupKey, setKey]
  · intro hb
    rcases eq_or_ne a 0 with rfl | ha
    · simp [accumulateState, truthy, hb]
    · simp [accumulateState, truthy, hb, ha]
  · intro hb
    subst hb
    rcases eq_or_ne a 0 with rfl | ha
    · simp [accumulateState, truthy]
    · simp [accumulateState, truthy, ha]

/-- C1 witness: the amended statement at `a = 3`, `b = 4`, key `x`. -/
theorem C1_number_merge_witness :
    accumulateState (.obj [("x", .num 3)]) (.obj [("x", .num 4)])
        = .obj [("x", .num (3 + 4))]
      ∧ accumulateState (.num 3) (.num 4) = .num 4 :=
  ⟨(C1_number_merge 3 4 "x").1, (C1_number_merge 3 4 "x").2.1 (by decide)⟩

/-! ### Claim C4: RuntimeFault leaves the state unchanged and is skipped -/

/-- C4: an event whose sandbox invocation faults leaves the running state
unchanged, and the partition fold continues with the remaining events in
order — the faulting event contributes nothing and is never retried. -/
theorem C4_runtime_fault_skips (f : StepFun) (s : JValue) (e : Event)
    (rest : List Event) (fault : String) (h : f s e = .error fault) :
    execEvent f s e = s
      ∧ processPartition f s (e :: rest) = processPartition f s rest := by
  have he : execEvent f s e = s := by simp [execEvent, h]
  exact ⟨he, by simp [processPartition, he]⟩

/-- C4 witness: a script that always faults, one event, empty tail. -/
theorem C4_runtime_fault_skips_witness :
    execEvent (fun _ _ => Except.error "boom") JValue.null {} = JValue.null
      ∧ processPartition (fun _ _ => Except.error "boom") JValue.null [{}]
          = processPartition (fun _ _ => Except.error "boom") JValue.null [] :=
  C4_runtime_fault_skips _ _ _ _ "boom" rfl

/-! ### Claim C8: other combinations take the incoming value -/

/-- C8 counterexample: a falsy incoming scalar does not win — the merge of
the strings `"a"` and `""` returns the base `"a"`, not the incoming `""`. -/
theorem C8_counterexample :
    accumulateState (.str "a") (.str "") = .str "a"
      ∧ JValue.str "a" ≠ JValue.str "" := by
  constructor
  · simp [accumulateState, truthy]
  · simp

/-- C8 as amended: with no list on either side and not both sides maps, a
truthy incoming value wins outright; a falsy incoming value (empty string,
0, false) loses to a truthy base, and only wins when the base is falsy too. -/
theorem C8_scalar_merge (b i : JValue) (hba : isArr b = false)
    (hia : isArr i = false) (hobj : ¬(isObj b = true ∧ isObj i = true)) :
    (truthy i = true → accumulateState b i = i)
      ∧ (truthy i = false → truthy b = true → accumulateState b i = b)
      ∧ (truthy i = false → truthy b = false → accumulateState b i = i) := by
  refine ⟨?_, ?_, ?_⟩ <;> intros <;>
    cases b <;> cases i <;> simp_all [accumulateState, truthy, isArr, isObj]

/-- C8 witness: a boolean base and a truthy string incoming. -/
theorem C8_scalar_merge_witness :
    truthy (.str "x") = true
      ∧ accumulateState (.bool true) (.str "x") = .str "x" :=
  ⟨by decide,
   (C8_scalar_merge (.bool true) (.str "x") rfl rfl (by simp [isObj])).1 (by decide)⟩

/-! ### Claim C2: shared keys of two merged maps -/

theorem lookupKey_setKey_self (l : List (String × JValue)) (k : String) (v : JValue) :
    lookupKey (setKey l k v) k = some v := by
  induction l with
  | nil => simp [setKey, lookupKey]
  | cons p rest ih =>
      obtain ⟨k', v'⟩ := p
      by_cases h : k' = k
      · subst h; simp [setKey, lookupKey]
      · simp [setKey, lookupKey, h, ih]

theorem lookupKey_setKey_ne (l : List (String × JValue)) (k k' : String) (v : JValue)
    (h : k' ≠ k) : lookupKey (setKey l k' v) k = lookupKey l k := by
  induction l with
  | nil => simp [setKey, lookupKey, h]
  | cons p rest ih =>
      obtain ⟨k1, v1⟩ := p
      by_cases h1 : k1 = k'
      · subst h1; simp [setKey, lookupKey, h]
      · simp [setKey, lookupKey, h1, ih]

theorem lookupKey_append_left (l l2 : List (String × JValue)) (k : String) (w : JValue)
    (h : lookupKey l k = some w) : lookupKey (l ++ l2) k = some w := by
  induction l with
  | nil => simp [lookupKey] at h
  | cons p rest ih =>
      obtain ⟨k1, v1⟩ := p
      by_cases h1 : k1 = k
      · subst h1
        simp [lookupKey] at h ⊢
        exact h
      · simp [lookupKey, h1] at h ⊢
        exact ih h

theorem lookupKey_mergeEntries_notin (bs ns : List (String × JValue)) (k : String)
    (w : JValue) (h : lookupKey bs k = some w) (hk : ∀ p ∈ ns, p.1 ≠ k) :
    lookupKey (mergeEntries bs ns) k = some w := by
  induction ns generalizing bs with
  | nil => simpa [mergeEntries] using h
  | cons p rest ih =>
      obtain ⟨k1, v1⟩ := p
      have hk1 : k1 ≠ k := hk (k1, v1) (by simp)
      have hrest : ∀ p ∈ rest, p.1 ≠ k := fun p hp => hk p (by simp [hp])
      cases hbk : lookupKey bs k1 with
      | some bv =>
          simp only [mergeEntries, hbk]
          exact ih _ (by rw [lookupKey_setKey_ne _ _ _ _ hk1]; exact h) hrest
      | none =>
          simp only [mergeEntries, hbk]
          exact ih _ (lookupKey_append_left _ _ _ _ h) hrest

theorem lookupKey_mergeEntries (bs ns : List (String × JValue)) (k : String)
    (bv nv : JValue) (hn : nodupKeys ns) (h1 : lookupKey bs k = some bv)
    (h2 : lookupKey ns k = some nv) :
    lookupKey (mergeEntries bs ns) k = some (mergeValue bv nv) := by
  induction ns generalizing bs with
  | nil => simp [lookupKey] at h2
  | cons p rest ih =>
      obtain ⟨k1, v1⟩ := p
      simp only [nodupKeys, List.map_cons, List.nodup_cons] at hn
      by_cases hk1 : k1 = k
      · subst hk1
        simp [lookupKey] at h2
        subst h2
        simp only [mergeEntries, h1]
        refine lookupKey_mergeEntries_notin _ _ _ _ (lookupKey_setKey_self _ _ _) ?_
        intro p hp hpk
        exact hn.1 (by simpa [hpk] using List.mem_map_of_mem Prod.fst hp)
      · have h2' : lookupKey rest k = some nv := by
          simpa [lookupKey, hk1] using h2
        cases hbk : lookupKey bs k1 with
        | some b1 =>
            simp only [mergeEntries, hbk]
            refine ih _ hn.2 ?_ h2'
            rw [lookupKey_setKey_ne _ _ _ _ hk1]
            exact h1
        | none =>
            simp only [mergeEntries, hbk]
            exact ih _ hn.2 (lookupKey_append_left _ _ _ _ h1) h2'

/-- C2 counterexample: with `base = {x:[1,2]}` and `incoming = {x:1}` the
merged map has `x = 1`, while `merge(base.x, incoming.x)` applied at the top
level returns the list `[1,2]` — so shared keys are not combined by the
whole merge function, and with exactly one list under the key the incoming
scalar wins, not the list. -/
theorem C2_counterexample :
    jGet (accumulateState (.obj [("x", .arr [.num 1, .num 2])])
        (.obj [("x", .num 1)])) "x" = some (.num 1)
      ∧ accumulateState (.arr [.num 1, .num 2]) (.num 1) = .arr [.num 1, .num 2]
      ∧ JValue.num 1 ≠ JValue.arr [.num 1, .num 2] := by
  refine ⟨?_, ?_, ?_⟩
  · simp [jGet, accumulateState, truthy, mergeEntries, mergeValue, lookupKey, setKey]
  · simp [accumulateState, truthy]
  · simp

/-- C2 as amended: a key present in both maps (with unique keys, as
JavaScript objects have) is combined by the per-key rule `mergeValue` —
numbers sum, two lists concatenate, two maps merge recursively, and in every
other combination (in particular when exactly one side is a list) the
incoming value wins. -/
theorem C2_shared_key_merge (bs ns : List (String × JValue)) (k : String)
    (bv nv : JValue) (hn : nodupKeys ns) (h1 : lookupKey bs k = some bv)
    (h2 : lookupKey ns k = some nv) :
    jGet (accumulateState (.obj bs) (.obj ns)) k = some (mergeValue bv nv) := by
  have hobj : accumulateState (.obj bs) (.obj ns) = .obj (mergeEntries bs ns) := by
    simp [accumulateState, truthy]
  rw [hobj]
  simpa [jGet] using lookupKey_mergeEntries bs ns k bv nv hn h1 h2

/-- C2 witness: the per-key rule at a concrete shared numeric key. -/
theorem C2_shared_key_merge_witness :
    jGet (accumulateState (.obj [("x", .num 1)]) (.obj [("x", .num 2)])) "x"
      = some (mergeValue (.num 1) (.num 2)) :=
  C2_shared_key_merge _ _ "x" _ _ (by simp [nodupKeys]) (by simp [lookupKey])
    (by simp [lookupKey])

/-! ### Batch processing collapses to the per-event fold when no invocation
faults (with a faulting event inside a multi-event batch, the engine instead
discards the whole batch, so the collapse needs the no-fault hypothesis) -/

theorem runBatchVM_noFault (f : StepFun)
    (h : ∀ (s : JValue) (e : Event), ∃ t, f s e = .ok t) :
    ∀ (events : List Event) (s : JValue),
      runBatchVM f s events = .ok (events.foldl (execEvent f) s) := by
  intro events
  induction events with
  | nil => intro s; simp [runBatchVM]
  | cons e rest ih =>
      intro s
      obtain ⟨t, ht⟩ := h s e
      have hexec : execEvent f s e = t := by simp [execEvent, ht]
      simp only [runBatchVM, ht, List.foldl_cons, hexec]
      exact ih t

theorem executeBatch_noFault (f : StepFun)
    (h : ∀ (s : JValue) (e : Event), ∃ t, f s e = .ok t)
    (s : JValue) (events : List Event) :
    executeBatchProjectionFunction f s events = events.foldl (execEvent f) s := by
  rw [executeBatchProjectionFunction, runBatchVM_noFault f h]

theorem processBatches_noFault_aux (f : StepFun)
    (h : ∀ (s : JValue) (e : Event), ∃ t, f s e = .ok t) (n : Nat) :
    ∀ (events : List Event), events.length ≤ n →
      ∀ (s : JValue), processBatches f events s = events.foldl (execEvent f) s := by
  induction n with
  | zero =>
      intro events hn s
      have he : events = [] := List.length_eq_zero.mp (Nat.le_zero.mp hn)
      subst he
      simp [processBatches]
  | succ n ih =>
      intro events hn s
      cases events with
      | nil => simp [processBatches]
      | cons e rest =>
          have hsplit : ∀ (l : List Event) (u : JValue),
              (match l with
               | [b] => execEvent f u b
               | bs => executeBatchProjectionFunction f u bs) = l.foldl (execEvent f) u := by
            intro l u
            match l with
            | [] => exact executeBatch_noFault f h u []
            | [b] => rfl
            | a :: b :: l' => exact executeBatch_noFault f h u (a :: b :: l')
          rw [processBatches]
          show processBatches f ((e :: rest).drop batchSize)
              (match (e :: rest).take batchSize with
               | [b] => execEvent f s b
               | bs => executeBatchProjectionFunction f s bs)
            = List.foldl (execEvent f) s (e :: rest)
          rw [hsplit]
          rw [ih _ (by
            have h' : rest.length + 1 ≤ n + 1 := by simpa using hn
            simp only [batchSize, List.length_drop, List.length_cons]
            omega)]
          conv_rhs => rw [← List.take_append_drop batchSize (e :: rest)]
          rw [List.foldl_append]

theorem processBatches_noFault (f : StepFun)
    (h : ∀ (s : JValue) (e : Event), ∃ t, f s e = .ok t)
    (events : List Event) (s : JValue) :
    processBatches f events s = events.foldl (execEvent f) s :=
  processBatches_noFault_aux f h events.length events le_rfl s

/-! ### Claim C3: sequential vs parallel on one partition -/

/-- C3 counterexample: a script that returns the constant state
`Object.assign({count: 10})` on every event.  On one partition holding one
event and caller initial state `{count: 5}`, the Single-Partition Processor
ends at `{count: 10}`, while the parallel orchestrator with one group of one
partition folds the partition from null to `{count: 10}` and then merges it
into the caller's state, ending at `{count: 15}`. -/
theorem C3_counterexample :
    processPartition (fun _ _ => .ok (.obj [("count", .num 10)]))
        (.obj [("count", .num 5)]) [{}] = .obj [("count", .num 10)]
      ∧ (runProjection (some (fun _ _ => .ok (.obj [("count", .num 10)])))
          (.obj [("count", .num 5)]) [[{}]] none).2 = .obj [("count", .num 15)]
      ∧ JValue.obj [("count", .num 10)] ≠ JValue.obj [("count", .num 15)] := by
  refine ⟨?_, ?_, ?_⟩
  · simp [processPartition, execEvent]
  · simp [runProjection, processGroups, enumFrom, abortedAt, maxConcurrentPartitions,
      mergeResults, processPartitionOptimized, processBatches, batchSize,
      executeBatchProjectionFunction, runBatchVM, execEvent, accumulateState, truthy,
      mergeEntries, mergeValue, lookupKey, setKey]
  · simp

/-- C3 as amended: the equivalence holds when the caller's initial state is
null (the default) and every sandbox invocation of the script succeeds:
then every processing batch collapses to the per-event fold, and merging the
partition result into a null global state returns it unchanged.  For a
non-null caller state the orchestrator merges instead of threading (see the
counterexample), and for a script that faults inside a multi-event batch the
optimized path discards the whole batch while the sequential processor
recovers per event, so both restrictions are necessary. -/
theorem C3_null_initial_equivalence (f : StepFun) (events : List Event)
    (h : ∀ (s : JValue) (e : Event), ∃ t, f s e = .ok t) :
    processPartition f .null events
      = (runProjection (some f) .null [events] none).2 := by
  have hmerge : ∀ v : JValue, accumulateState .null v = v := by
    intro v
    cases v <;> simp [accumulateState, truthy]
  have hpb : processBatches f events .null = events.foldl (execEvent f) .null :=
    processBatches_noFault f h events .null
  simp [runProjection, processGroups, enumFrom, abortedAt, maxConcurrentPartitions,
    mergeResults, hmerge, processPartitionOptimized, hpb, processPartition]

/-- C3 witness: the identity script (which never faults) on one event. -/
theorem C3_null_initial_equivalence_witness :
    processPartition (fun s _ => .ok s) .null [{}]
      = (runProjection (some (fun s _ => .ok s)) .null [[{}]] none).2 :=
  C3_null_initial_equivalence (fun s _ => .ok s) [{}] (fun s _ => ⟨s, rfl⟩)

/-! ### Claim C5: missing entry point -/

/-- C5: a script that does not define the `project` entry point makes the
wrapper script throw before any event-store access, and the run reports
exactly one progress event — the terminal error payload with zero events
processed, zero partition counts, and the filtered initial state. -/
theorem C5_no_entry_point (s0 : JValue) (partitions : List (List Event))
    (abortAfter : Option Nat) :
    runProjection none s0 partitions abortAfter
      = ([(s0, ⟨0, 0, 0, filterStateForClient s0, .error,
           some "No project function defined"⟩)], s0) := rfl

/-! ### Claim C6: abort and the final progress callback -/

theorem enumFrom_take {α : Type} :
    ∀ (l : List α) (n k : Nat), (enumFrom n l).take k = enumFrom n (l.take k) := by
  intro l
  induction l with
  | nil => intro n k; simp [enumFrom]
  | cons x xs ih =>
      intro n k
      cases k with
      | zero => simp [enumFrom]
      | succ k => simp [enumFrom, ih]

theorem foldl_enumFrom {α β : Type} (g : β → α → β) :
    ∀ (l : List α) (n : Nat) (s : β),
      (enumFrom n l).foldl (fun acc pr => g acc pr.2) s = l.foldl g s := by
  intro l
  induction l with
  | nil => intro n s; simp [enumFrom]
  | cons x xs ih => intro n s; simp [enumFrom, ih]

theorem mergeResults_state :
    ∀ (results : List (Nat × JValue × Nat)) (total : Nat) (state : JValue) (count : Nat),
      (mergeResults results total state count).2.1
        = results.foldl (fun s r => accumulateState s r.2.1) state := by
  intro results
  induction results with
  | nil => intro total state count; simp [mergeResults]
  | cons r rest ih => intro total state count; simp [mergeResults, ih]

theorem processGroups_state_aux (f : StepFun) (n : Nat) :
    ∀ (parts : List (Nat × List Event)), parts.length ≤ n →
      ∀ (g a : Nat) (state : JValue) (count total : Nat),
        (processGroups f parts g (some a) state count total).2.1
          = (parts.take (maxConcurrentPartitions * (a - g))).foldl
              (fun s pr => accumulateState s (partitionFinalState f pr.2)) state := by
  induction n with
  | zero =>
      intro parts h g a state count total
      have he : parts = [] := List.length_eq_zero.mp (Nat.le_zero.mp h)
      subst he
      simp [processGroups]
  | succ n ih =>
      intro parts h g a state count total
      cases parts with
      | nil => simp [processGroups]
      | cons p rest =>
          rw [processGroups]
          by_cases hab : a ≤ g
          · have hz : maxConcurrentPartitions * (a - g) = 0 := by
              have : a - g = 0 := Nat.sub_eq_zero_of_le hab
              simp [this]
            simp [abortedAt, hab, hz]
          · have hfun : (fun (s : JValue) (pr : Nat × List Event) =>
                accumulateState s (processPartitionOptimized f pr.2).1)
                  = (fun s pr => accumulateState s (partitionFinalState f pr.2)) := by
              funext s pr
              rw [partitionFinalState]
            have hlen : ((p :: rest).drop maxConcurrentPartitions).length ≤ n := by
              have h' : rest.length + 1 ≤ n + 1 := by simpa using h
              simp only [maxConcurrentPartitions, List.length_drop, List.length_cons]
              omega
            have hd : maxConcurrentPartitions * (a - g)
                = maxConcurrentPartitions + maxConcurrentPartitions * (a - (g + 1)) := by
              simp only [maxConcurrentPartitions]
              omega
            rw [if_neg (by simp [abortedAt, hab])]
            simp only [ih _ hlen, mergeResults_state, List.foldl_map, hfun]
            rw [hd, List.take_add, List.foldl_append]

theorem processGroups_state (f : StepFun) (parts : List (Nat × List Event))
    (g a : Nat) (state : JValue) (count total : Nat) :
    (processGroups f parts g (some a) state count total).2.1
      = (parts.take (maxConcurrentPartitions * (a - g))).foldl
          (fun s pr => accumulateState s (partitionFinalState f pr.2)) state :=
  processGroups_state_aux f parts.length parts le_rfl g a state count total

/-- C6 counterexample: an identity script over seven partitions with the
abort signal raised after the first concurrency group.  Only the six
partitions of group zero are reported (the trace has six running events plus
the final one), yet the final progress event carries status `completed` —
the status is forced, not left as it was at the abort. -/
theorem C6_counterexample :
    ((runProjection (some (fun s _ => .ok s)) (.obj [("a", .num 1)])
        [[], [], [], [], [], [], []] (some 1)).1.map (fun p => p.2.status)).getLast?
        = some .completed
      ∧ (runProjection (some (fun s _ => .ok s)) (.obj [("a", .num 1)])
          [[], [], [], [], [], [], []] (some 1)).1.length = 7 := by
  constructor <;>
    simp [runProjection, processGroups, enumFrom, abortedAt, maxConcurrentPartitions,
      mergeResults, processPartitionOptimized, processBatches, accumulateState, truthy,
      filterStateForClient, filterEntries]

/-- C6 as amended: a run aborted at the check before group `a` merges
exactly the null-seeded optimized results of the partitions in the groups
before `a` into the caller's state, in dispatch order, and its final
progress callback reports that accumulated state — but with status forced
to `completed` (the final payload is emitted unconditionally after the
loop), not left as it was at the abort. -/
theorem C6_abort_final_callback (f : StepFun) (s0 : JValue)
    (partitions : List (List Event)) (a : Nat) :
    (runProjection (some f) s0 partitions (some a)).2
        = mergedUpTo f s0 partitions (maxConcurrentPartitions * a)
      ∧ ((runProjection (some f) s0 partitions (some a)).1.map (fun p => p.1)).getLast?
          = some (runProjection (some f) s0 partitions (some a)).2
      ∧ ((runProjection (some f) s0 partitions (some a)).1.map
            (fun p => p.2.status)).getLast? = some .completed
      ∧ ((runProjection (some f) s0 partitions (some a)).1.map
            (fun p => p.2.current_state)).getLast?
          = some (filterStateForClient (runProjection (some f) s0 partitions (some a)).2) := by
  have getLast_map_concat : ∀ {α β : Type} (gm : α → β) (l : List α) (x : α),
      ((l ++ [x]).map gm).getLast? = some (gm x) := by
    intro α β gm l x
    simp only [List.map_append, List.map_cons, List.map_nil]
    exact List.getLast?_concat _
  refine ⟨?_, ?_, ?_, ?_⟩
  · show (runProjection (some f) s0 partitions (some a)).2 = _
    simp only [runProjection]
    rw [processGroups_state]
    rw [Nat.sub_zero, enumFrom_take, mergedUpTo]
    exact foldl_enumFrom (fun s evs => accumulateState s (partitionFinalState f evs)) _ 0 s0
  · simp only [runProjection]
    rw [getLast_map_concat]
  · simp only [runProjection]
    rw [getLast_map_concat]
  · simp only [runProjection]
    rw [getLast_map_concat]

/-! ### Claim C7: progress payloads carry the filtered state -/

theorem filterList_eq : ∀ (xs : List JValue),
    filterList xs = xs.map filterStateForClient := by
  intro xs
  induction xs with
  | nil => simp [filterList]
  | cons v rest ih => simp [filterList, ih]

theorem filterEntries_eq : ∀ (l : List (String × JValue)),
    filterEntries l
      = l.filterMap fun kv =>
          if startsWithUnderscore kv.1 then none
          else some (kv.1, filterStateForClient kv.2) := by
  intro l
  induction l with
  | nil => simp [filterEntries]
  | cons kv rest ih =>
      obtain ⟨k, v⟩ := kv
      cases hk : startsWithUnderscore k with
      | true =>
          cases v <;> simp [filterEntries, hk, ih, List.filterMap_cons]
      | false =>
          cases v <;>
            simp [filterEntries, hk, ih, List.filterMap_cons, filterStateForClient]

theorem mergeResults_filter :
    ∀ (results : List (Nat × JValue × Nat)) (total : Nat) (state : JValue) (count : Nat)
      (p : JValue × Progress), p ∈ (mergeResults results total state count).1 →
      p.2.current_state = filterStateForClient p.1 := by
  intro results
  induction results with
  | nil => intro total state count p hp; simp [mergeResults] at hp
  | cons r rest ih =>
      intro total state count p hp
      simp only [mergeResults, List.mem_cons] at hp
      rcases hp with rfl | hp
      · rfl
      · exact ih _ _ _ p hp

theorem processGroups_filter_aux (f : StepFun) (n : Nat) :
    ∀ (parts : List (Nat × List Event)), parts.length ≤ n →
      ∀ (g : Nat) (ab : Option Nat) (state : JValue) (count total : Nat)
        (p : JValue × Progress), p ∈ (processGroups f parts g ab state count total).1 →
        p.2.current_state = filterStateForClient p.1 := by
  induction n with
  | zero =>
      intro parts h g ab state count total p hp
      have he : parts = [] := List.length_eq_zero.mp (Nat.le_zero.mp h)
      subst he
      simp [processGroups] at hp
  | succ n ih =>
      intro parts h g ab state count total p hp
      cases parts with
      | nil => simp [processGroups] at hp
      | cons q rest =>
          cases habt : abortedAt ab g with
          | true => simp [processGroups, habt] at hp
          | false =>
              simp only [processGroups, habt, Bool.false_eq_true, if_false,
                List.mem_append] at hp
              rcases hp with hp | hp
              · exact mergeResults_filter _ _ _ _ p hp
              · refine ih _ ?_ _ _ _ _ _ p hp
                have h' : rest.length + 1 ≤ n + 1 := by simpa using h
                simp only [maxConcurrentPartitions, List.length_drop, List.length_cons]
                omega

/-- C7: every progress payload the run emits (running, completed or error)
carries as `current_state` the engine's raw state at that emission with
every underscore-prefixed key stripped by `filterStateForClient`; and the
filter strips such keys recursively through nested maps and through list
elements, leaving scalars unchanged. -/
theorem C7_filtered_state (script : Option StepFun) (s0 : JValue)
    (partitions : List (List Event)) (abortAfter : Option Nat)
    (p : JValue × Progress)
    (hp : p ∈ (runProjection script s0 partitions abortAfter).1) :
    p.2.current_state = filterStateForClient p.1
      ∧ (∀ l, filterStateForClient (.obj l)
            = .obj (l.filterMap fun kv =>
                if startsWithUnderscore kv.1 then none
                else some (kv.1, filterStateForClient kv.2)))
      ∧ (∀ xs, filterStateForClient (.arr xs) = .arr (xs.map filterStateForClient))
      ∧ (∀ n : Int, filterStateForClient (.num n) = .num n)
      ∧ filterStateForClient .null = .null := by
  refine ⟨?_, ?_, ?_, ?_, ?_⟩
  · cases script with
    | none =>
        simp only [runProjection, List.mem_singleton] at hp
        subst hp
        rfl
    | some f =>
        simp only [runProjection, List.mem_append, List.mem_singleton] at hp
        rcases hp with hp | hp
        · exact processGroups_filter_aux f _ _ le_rfl _ _ _ _ _ p hp
        · subst hp; rfl
  · intro l
    rw [filterStateForClient, filterEntries_eq]
  · intro xs
    rw [filterStateForClient, filterList_eq]
  · intro n
    rfl
  · rfl

/-- C7 witness: the error payload of a run whose initial state holds an
underscore-prefixed key, which the transmitted state loses. -/
theorem C7_filtered_state_witness :
    filterStateForClient (.obj [("_a", JValue.num 1), ("b", .num 2)])
        = .obj [("b", .num 2)]
      ∧ ((.obj [("_a", JValue.num 1), ("b", .num 2)],
          (⟨0, 0, 0, filterStateForClient (.obj [("_a", JValue.num 1), ("b", .num 2)]),
           .error, some "No project function defined"⟩ : Progress)) :
            JValue × Progress).2.current_state
          = filterStateForClient (.obj [("_a", JValue.num 1), ("b", .num 2)]) := by
  constructor
  · simp [filterStateForClient, filterEntries, startsWithUnderscore]
  · exact (C7_filtered_state none (.obj [("_a", JValue.num 1), ("b", .num 2)]) [] none
      _ (by simp [runProjection])).1

/-! ### Claim C9: reset rewinds without recompiling or reloading -/

theorem stepSession_preserves (s : DebugSession) :
    (stepSession s).1.initialState = s.initialState
      ∧ (stepSession s).1.events = s.events
      ∧ (stepSession s).1.script = s.script
      ∧ (stepSession s).1.code = s.code := by
  rw [stepSession]
  by_cases hterm : s.status = .completed ∨ s.status = .error
  · rw [if_pos hterm]
    exact ⟨rfl, rfl, rfl, rfl⟩
  · rw [if_neg hterm]
    by_cases hlt : s.currentEventIndex < s.events.length
    · rw [dif_pos hlt]
      cases hres : s.script s.currentState (s.events.get ⟨s.currentEventIndex, hlt⟩) with
      | ok result logs =>
          simp only [List.get_eq_getElem] at hres
          simp [hres]
      | err msg =>
          simp only [List.get_eq_getElem] at hres
          simp [hres]
    · rw [dif_neg hlt]
      exact ⟨rfl, rfl, rfl, rfl⟩

theorem stepN_preserves (n : Nat) : ∀ (s : DebugSession),
    (stepN n s).initialState = s.initialState
      ∧ (stepN n s).events = s.events
      ∧ (stepN n s).script = s.script
      ∧ (stepN n s).code = s.code := by
  induction n with
  | zero => intro s; exact ⟨rfl, rfl, rfl, rfl⟩
  | succ n ih =>
      intro s
      have h1 := stepSession_preserves s
      have h2 := ih (stepSession s).1
      rw [stepN]
      exact ⟨h2.1.trans h1.1, h2.2.1.trans h1.2.1, h2.2.2.1.trans h1.2.2.1,
        h2.2.2.2.trans h1.2.2.2⟩

/-- C9: after any number of steps, `resetSession` leaves the session with
the current state equal to the session's original initial state, step index
0, empty console log, idle status, and the same compiled script and
materialized event list as when the session was created — nothing is
recompiled or reloaded. -/
theorem C9_reset_rewinds (s0 : DebugSession) (n : Nat) :
    (resetSession (stepN n s0)).currentState = s0.initialState
      ∧ (resetSession (stepN n s0)).currentEventIndex = 0
      ∧ (resetSession (stepN n s0)).consoleLogs = []
      ∧ (resetSession (stepN n s0)).status = .idle
      ∧ (resetSession (stepN n s0)).previousState = .null
      ∧ (resetSession (stepN n s0)).error = none
      ∧ (resetSession (stepN n s0)).script = s0.script
      ∧ (resetSession (stepN n s0)).events = s0.events
      ∧ (resetSession (stepN n s0)).code = s0.code := by
  have h := stepN_preserves n s0
  refine ⟨?_, rfl, rfl, rfl, rfl, rfl, ?_, ?_, ?_⟩
  · exact h.1
  · exact h.2.2.1
  · exact h.2.1
  · exact h.2.2.2

/-! ### Claim C10: stepping on an error and stepping a terminal session -/

/-- C10: a step whose script invocation reports an error moves the session
to status `error` with the message recorded while the step index and the
current state stay exactly as they were, and the step reports processing
complete; and stepping a session already `completed` or `error` returns it
unchanged with the processing-complete flag and no state change. -/
theorem C10_step_error_and_terminal (s : DebugSession) (msg : String) :
    ((s.status = .completed ∨ s.status = .error) → stepSession s = (s, ⟨false, true⟩))
      ∧ (∀ (hterm : ¬(s.status = .completed ∨ s.status = .error))
          (hlt : s.currentEventIndex < s.events.length),
          s.script s.currentState (s.events.get ⟨s.currentEventIndex, hlt⟩) = .err msg →
            (stepSession s).1.status = .error
              ∧ (stepSession s).1.error = some msg
              ∧ (stepSession s).1.currentEventIndex = s.currentEventIndex
              ∧ (stepSession s).1.currentState = s.currentState
              ∧ (stepSession s).2.processingComplete = true) := by
  constructor
  · intro hterm
    rw [stepSession, if_pos hterm]
  · intro hterm hlt hscript
    rw [stepSession, if_neg hterm, dif_pos hlt]
    simp only [List.get_eq_getElem] at hscript
    simp [hscript]

/-- C10 witness: both parts at concrete sessions. -/
theorem C10_step_error_and_terminal_witness :
    stepSession sampleDoneSession = (sampleDoneSession, ⟨false, true⟩)
      ∧ (stepSession sampleErrSession).1.status = .error
      ∧ (stepSession sampleErrSession).1.error = some "boom"
      ∧ (stepSession sampleErrSession).1.currentEventIndex = 0
      ∧ (stepSession sampleErrSession).1.currentState = .null
      ∧ (stepSession sampleErrSession).2.processingComplete = true := by
  refine ⟨(C10_step_error_and_terminal sampleDoneSession "boom").1 (Or.inl rfl), ?_⟩
  exact (C10_step_error_and_terminal sampleErrSession "boom").2
    (by decide) (by decide) rfl

end SierraDB
